import Mathlib

/-!
Verification development for LiteProxyPool (Go).

This file shallowly embeds the pure logic of the repository:
the proxy-spec parser (src/logic/parser.go, src/logic/dialer.go),
the merge/dedup pipeline and fetch failure policy (src/logic/dialer.go),
the pool manager state machine (src/logic/manager.go),
the refresher control flow (src/logic/refresher.go),
the validator's collector loop (src/logic/validation.go),
and a spec-modelled HTTP CONNECT dial path.

Strings are processed as lists of characters with structural recursion so
that every definition evaluates by kernel reduction.  Library primitives the
Go code relies on (net.ParseIP, net.SplitHostPort, strconv.Atoi,
strings.TrimSpace and friends) are modelled explicitly next to their users;
net/url.Parse is abstracted as a function parameter because the repo only
consumes its accessor results.
-/

namespace LiteProxy

/-- Model of Go `unicode.IsSpace` restricted to the code points
`strings.TrimSpace` can meet in proxy feeds (ASCII whitespace plus NEL and
NBSP, the only space runes below U+1680). -/
def isGoSpace (c : Char) : Bool :=
  c == Char.ofNat 32 || c == Char.ofNat 9 || c == Char.ofNat 10 || c == Char.ofNat 13 ||
  c == Char.ofNat 11 || c == Char.ofNat 12 || c == Char.ofNat 133 || c == Char.ofNat 160

/-- Trim Go-style whitespace from both ends of a character list. -/
def trimSpaceL (l : List Char) : List Char :=
  ((l.dropWhile isGoSpace).reverse.dropWhile isGoSpace).reverse

/-- Model of Go `strings.TrimSpace`. -/
def goTrimSpace (s : String) : String := String.mk (trimSpaceL s.data)

/-- Model of Go `strings.ToLower` on ASCII input (the only input the repo
feeds it: scheme names and the configured default type). -/
def toLowerCh (c : Char) : Char :=
  if 'A' ≤ c ∧ c ≤ 'Z' then Char.ofNat (c.toNat + 32) else c

/-- ASCII lower-casing of a string. -/
def asciiToLower (s : String) : String := String.mk (s.data.map toLowerCh)

/-- Whether `pat` occurs at the head of `l`. -/
def isHeadSeq : List Char → List Char → Bool
  | [], _ => true
  | _ :: _, [] => false
  | a :: t, b :: u => a = b && isHeadSeq t u

/-- Model of Go `strings.Contains`: whether `pat` occurs inside `l`. -/
def containsSeq (pat : List Char) : List Char → Bool
  | [] => isHeadSeq pat []
  | c :: t => isHeadSeq pat (c :: t) || containsSeq pat t

/-- Index of the first occurrence of `c` in `l`. -/
def indexOfChar (c : Char) : List Char → Option Nat
  | [] => none
  | a :: t =>
    if a = c then some 0
    else match indexOfChar c t with
      | none => none
      | some i => some (i + 1)

/-- Index of the last occurrence of `c` in `l` (Go `strings.LastIndex`). -/
def lastIndexOfChar (c : Char) : List Char → Option Nat
  | [] => none
  | a :: t =>
    match lastIndexOfChar c t with
    | some i => some (i + 1)
    | none => if a = c then some 0 else none

/-- Number of occurrences of `c` in `l` (Go `strings.Count` for a
one-character pattern). -/
def countChar (c : Char) (l : List Char) : Nat := (l.filter (fun a => a = c)).length

/-- Decimal digit test. -/
def isDigitCh (c : Char) : Bool := decide ('0' ≤ c ∧ c ≤ '9')

/-- Accumulate the value of a nonempty all-digit run; `none` on any
non-digit. -/
def digitsValAux : List Char → Nat → Option Nat
  | [], n => some n
  | c :: t, n => if isDigitCh c then digitsValAux t (n * 10 + (c.toNat - 48)) else none

/-- Value of a nonempty all-digit character list. -/
def digitsVal (l : List Char) : Option Nat :=
  match l with
  | [] => none
  | _ => digitsValAux l 0

/-- Model of Go `strconv.Atoi`: optional sign followed by a nonempty digit
run.  (Overflowing inputs make Atoi fail; here they yield a value far outside
1..65535, which every caller rejects the same way.) -/
def atoiList : List Char → Option Int
  | '+' :: t => (digitsVal t).map Int.ofNat
  | '-' :: t => (digitsVal t).map (fun n => -(n : Int))
  | l => (digitsVal l).map Int.ofNat

/-- parser.go `validPort` on a character list: `strconv.Atoi` succeeds and the
value lies in 1..65535. -/
def validPortL (l : List Char) : Bool :=
  match atoiList l with
  | some n => decide (1 ≤ n ∧ n ≤ 65535)
  | none => false

/-- parser.go `validPort`. -/
def validPort (s : String) : Bool := validPortL s.data

/-- Split a character list at every occurrence of `c` (Go `strings.Split`). -/
def splitOnChar (c : Char) : List Char → List (List Char)
  | [] => [[]]
  | a :: t =>
    if a = c then [] :: splitOnChar c t
    else
      match splitOnChar c t with
      | [] => [[a]]
      | h :: r => (a :: h) :: r

/-- One dotted-decimal IPv4 field as Go `net` accepts it (Go ≥ 1.17):
one to three digits, no leading zero, value at most 255. -/
def v4FieldOK (f : List Char) : Bool :=
  match digitsVal f with
  | none => false
  | some v =>
    decide (v ≤ 255) && decide (f.length ≤ 3) &&
    (decide (f.length ≤ 1) || decide (f.head? ≠ some '0'))

/-- Model of Go's IPv4 literal parser: exactly four valid fields separated by
dots. -/
def parseIPv4 (l : List Char) : Bool :=
  match splitOnChar '.' l with
  | [a, b, c, d] => v4FieldOK a && v4FieldOK b && v4FieldOK c && v4FieldOK d
  | _ => false

/-- Hex digit value. -/
def hexDigitVal (c : Char) : Option Nat :=
  if '0' ≤ c ∧ c ≤ '9' then some (c.toNat - 48)
  else if 'a' ≤ c ∧ c ≤ 'f' then some (c.toNat - 97 + 10)
  else if 'A' ≤ c ∧ c ≤ 'F' then some (c.toNat - 65 + 10)
  else none

/-- Model of Go `net`'s `xtoi`: consume a nonempty hex-digit run, failing when
the accumulator reaches the 0xFFFFFF cutoff; returns the value and the rest
of the input. -/
def xtoiAux : List Char → Nat → Nat → Option (Nat × List Char)
  | [], n, cnt => if cnt = 0 then none else some (n, [])
  | c :: t, n, cnt =>
    match hexDigitVal c with
    | none => if cnt = 0 then none else some (n, c :: t)
    | some d =>
      if n * 16 + d ≥ 16777216 then none else xtoiAux t (n * 16 + d) (cnt + 1)

/-- Nonempty leading hex run of a character list, with the remaining characters. -/
def xtoi (l : List Char) : Option (Nat × List Char) := xtoiAux l 0 0

/-- Are we at the end of the final group of an IPv6 literal?  Mirrors the
post-loop checks of Go's `parseIPv6`: all input consumed, and the byte count
is 16 exactly when no `::` ellipsis was seen. -/
def v6Final (i : Nat) (ell : Bool) : Bool :=
  if i < 16 then ell else ¬ell

/-- The group loop of Go's `parseIPv6`.  `i` is the number of address bytes
already produced, `ell` whether a `::` ellipsis has been consumed.  Each
iteration consumes one hex group (two bytes) or a trailing embedded IPv4
literal (four bytes); the fuel bounds the at most eight iterations. -/
def parseIPv6Loop : Nat → List Char → Nat → Bool → Bool
  | 0, _, _, _ => false
  | fuel + 1, s, i, ell =>
    match xtoi s with
    | none => false
    | some (n, rest) =>
      if n > 65535 then false
      else if rest.head? = some '.' then
        if (¬ell ∧ i ≠ 12) ∨ i + 4 > 16 then false
        else if parseIPv4 s then v6Final (i + 4) ell
        else false
      else
        match rest with
        | [] => v6Final (i + 2) ell
        | [':'] => false
        | ':' :: ':' :: rest2 =>
          if ell then false
          else
            match rest2 with
            | [] => v6Final (i + 2) true
            | _ =>
              if i + 2 < 16 then parseIPv6Loop fuel rest2 (i + 2) true else false
        | ':' :: rest2 =>
          if i + 2 < 16 then parseIPv6Loop fuel rest2 (i + 2) ell else false
        | _ => false

/-- Model of Go's IPv6 literal parser. -/
def parseIPv6 (l : List Char) : Bool :=
  match l with
  | ':' :: ':' :: rest =>
    match rest with
    | [] => true
    | _ => parseIPv6Loop 9 rest 0 true
  | _ => parseIPv6Loop 9 l 0 false

/-- Find which of dot and colon occurs first in a character list: `some true`
for dot (IPv4), `some false` for colon (IPv6). -/
def firstDotOrColon : List Char → Option Bool
  | [] => none
  | c :: t =>
    if c = '.' then some true
    else if c = ':' then some false
    else firstDotOrColon t

/-- Model of Go `net.ParseIP` viewed as a validity test: scan for the first
dot or colon to choose the v4 or v6 parser; neither present means not an IP
literal. -/
def goIsIPList (l : List Char) : Bool :=
  match firstDotOrColon l with
  | some true => parseIPv4 l
  | some false => parseIPv6 l
  | none => false

/-- `net.ParseIP s != nil` as a Boolean on strings. -/
def goIsIP (s : String) : Bool := goIsIPList s.data

/-! ## Data model (manager.go) -/

/-- manager.go `ProxyTypeHTTP`. -/
def ProxyTypeHTTP : String := "http"

/-- manager.go `ProxyTypeSOCKS5`. -/
def ProxyTypeSOCKS5 : String := "socks5"

/-- manager.go `ProxyNode`. -/
structure ProxyNode where
  id : String
  type : String
  ip : String
  port : String
  user : String
  pass : String
  country : String
  latencyMS : Int
deriving DecidableEq, Repr

/-- manager.go `ProxyNode.Addr`. -/
def ProxyNode.Addr (n : ProxyNode) : String :=
  if n.ip = "" ∨ n.port = "" then "" else n.ip ++ ":" ++ n.port

/-! ## Spec parser (parser.go) and `splitHostPortLoose` (dialer.go) -/

/-- Model of Go `net.SplitHostPort`: split at the last colon, handling a
bracketed IPv6 host and rejecting stray colons or brackets. -/
def goSplitHostPort (l : List Char) : Option (List Char × List Char) :=
  match lastIndexOfChar ':' l with
  | none => none
  | some i =>
    if l.head? = some '[' then
      match indexOfChar ']' l with
      | none => none
      | some en =>
        if en + 1 = l.length then none
        else if en + 1 = i then
          if '[' ∈ l.drop 1 ∨ ']' ∈ l.drop (en + 1) then none
          else some ((l.drop 1).take (en - 1), l.drop (i + 1))
        else none
    else
      let host := l.take i
      if ':' ∈ host then none
      else if '[' ∈ l ∨ ']' ∈ l then none
      else some (host, l.drop (i + 1))

/-- Go `strings.Trim(h, "[]")`: strip leading and trailing brackets. -/
def trimBrackets (l : List Char) : List Char :=
  let f := fun c => c == '[' || c == ']'
  ((l.dropWhile f).reverse.dropWhile f).reverse

/-- dialer.go `splitHostPortLoose`: with exactly one colon, split there, trim
spaces and validate host and port; otherwise fall back to
`net.SplitHostPort` (bracketed IPv6), trim brackets and validate. -/
def splitHostPortLoose (s : String) : Option (String × String) :=
  if countChar ':' s.data = 1 then
    match indexOfChar ':' s.data with
    | none => none
    | some i =>
      if trimSpaceL (s.data.take i) = [] ∨ trimSpaceL (s.data.drop (i + 1)) = [] then none
      else if ¬ goIsIPList (trimSpaceL (s.data.take i)) then none
      else if ¬ validPortL (trimSpaceL (s.data.drop (i + 1))) then none
      else some (String.mk (trimSpaceL (s.data.take i)),
                 String.mk (trimSpaceL (s.data.drop (i + 1))))
  else
    match goSplitHostPort s.data with
    | none => none
    | some hp =>
      if ¬ goIsIPList (trimBrackets hp.1) then none
      else if ¬ validPortL hp.2 then none
      else some (String.mk (trimBrackets hp.1), String.mk hp.2)

/-- parser.go `guessProxyType`: the port-based heuristic for bare descriptors
whose default type is not a recognized transport. -/
def guessProxyType (port : String) : String :=
  if port = "1080" ∨ port = "1081" ∨ port = "1085" ∨ port = "9050" ∨
     port = "9150" ∨ port = "4145" then ProxyTypeSOCKS5
  else ProxyTypeHTTP

/-- The accessor results of a successful `net/url.Parse` as parser.go reads
them: `u.Scheme`, `u.User` (presence, name, password), `u.Hostname()`
(brackets stripped) and `u.Port()`.  `net/url` itself is standard-library
code, so it is abstracted as a function parameter below. -/
structure URLParts where
  scheme : String
  hasUser : Bool
  username : String
  password : String
  host : String
  port : String
deriving DecidableEq, Repr

/-- The scheme whitelist-and-normalize switch of the scheme form:
`http`/`https` become `http`, `socks5`/`socks5h` become `socks5`, anything
else is rejected. -/
def schemeKind (scheme : String) : Option String :=
  if scheme = "http" ∨ scheme = "https" then some ProxyTypeHTTP
  else if scheme = "socks5" ∨ scheme = "socks5h" then some ProxyTypeSOCKS5
  else none

/-- The scheme-form branch of parser.go `ParseProxySpec`, given the parsed
URL: whitelist and normalize the scheme, require a literal IP host and a
valid port, and build the node. -/
def parseSchemeBranch (u : URLParts) : Option ProxyNode :=
  match schemeKind (asciiToLower u.scheme) with
  | none => none
  | some kind =>
    if ¬ goIsIP u.host ∨ ¬ validPort u.port then none
    else
      some { id := u.host ++ ":" ++ u.port, type := kind, ip := u.host,
             port := u.port,
             user := if u.hasUser then u.username else "",
             pass := if u.hasUser then u.password else "",
             country := "", latencyMS := -1 }

/-- The `strings.LastIndex(spec, "@")` split of the bare form: when the last
`@` sits at a positive index, everything before it is userinfo and the rest
is the host:port; otherwise the whole spec is the host:port. -/
def bareSplitAt (specL : List Char) : List Char × List Char :=
  match lastIndexOfChar '@' specL with
  | some a => if 0 < a then (specL.take a, specL.drop (a + 1)) else ([], specL)
  | none => ([], specL)

/-- Credentials from the userinfo of a bare descriptor:
`strings.SplitN(userinfo, ":", 2)` yields user and pass only when a colon is
present; otherwise both stay empty. -/
def bareCreds (userinfo : List Char) : String × String :=
  if userinfo = [] then ("", "")
  else
    match indexOfChar ':' userinfo with
    | some i => (String.mk (userinfo.take i), String.mk (userinfo.drop (i + 1)))
    | none => ("", "")

/-- The kind of a bare descriptor: the default type when it is a recognized
transport (after trimming and lower-casing), else the port heuristic. -/
def barePickType (defaultType : String) (port : String) : String :=
  if asciiToLower (goTrimSpace defaultType) = ProxyTypeHTTP ∨
     asciiToLower (goTrimSpace defaultType) = ProxyTypeSOCKS5 then
    asciiToLower (goTrimSpace defaultType)
  else guessProxyType port

/-- The bare-form branch of parser.go `ParseProxySpec`: split credentials at
the last `@` (only when it is not the first character), split host and port
loosely, pick the kind from the default type or the port heuristic, and
split `user:pass` at the first colon. -/
def parseBareBranch (specL : List Char) (defaultType : String) : Option ProxyNode :=
  match splitHostPortLoose (String.mk (bareSplitAt specL).2) with
  | none => none
  | some hp =>
    some { id := hp.1 ++ ":" ++ hp.2, type := barePickType defaultType hp.2,
           ip := hp.1, port := hp.2,
           user := (bareCreds (bareSplitAt specL).1).1,
           pass := (bareCreds (bareSplitAt specL).1).2,
           country := "", latencyMS := -1 }

/-- parser.go `ParseProxySpec`.  `urlParse` abstracts `net/url.Parse` (the
only standard-library step of the scheme branch); `none` is Go's
`(ProxyNode{}, false)` sentinel. -/
def ParseProxySpec (urlParse : String → Option URLParts) (spec0 defaultType : String) :
    Option ProxyNode :=
  let spec := goTrimSpace spec0
  if spec = "" ∨ spec.data.head? = some '#' then none
  else if containsSeq "://".data spec.data then
    match urlParse spec with
    | none => none
    | some u => parseSchemeBranch u
  else parseBareBranch spec.data defaultType

/-- A trivial stand-in for `net/url.Parse` used to instantiate theorems on
descriptors that take the bare-form branch (where `urlParse` is never
consulted). -/
def noURLParse : String → Option URLParts := fun _ => none

/-! ## `MergeDedup` (dialer.go) -/

/-- The in-place normalization `MergeDedup` applies to each emitted node:
`ID` is re-set to `ip:port` and a zero latency becomes the −1 sentinel. -/
def normalizeNode (n : ProxyNode) : ProxyNode :=
  { n with id := n.ip ++ ":" ++ n.port,
           latencyMS := if n.latencyMS = 0 then -1 else n.latencyMS }

/-- The dedup key `MergeDedup` records in its `seen` set. -/
def dedupKey (n : ProxyNode) : String := n.type ++ "|" ++ n.ip ++ ":" ++ n.port

/-- One iteration of the `MergeDedup` loop over `(out, seen)`. -/
def dedupStep (acc : List ProxyNode × List String) (n : ProxyNode) :
    List ProxyNode × List String :=
  if n.ip = "" ∨ n.port = "" ∨ n.type = "" then acc
  else if dedupKey n ∈ acc.2 then acc
  else (acc.1 ++ [normalizeNode n], dedupKey n :: acc.2)

/-- dialer.go `MergeDedup` (variadic lists passed as a list of lists):
preserve first-seen order, drop nodes with an empty field, drop repeated
`(type, ip, port)` keys, and normalize each emitted node. -/
def MergeDedup (lists : List (List ProxyNode)) : List ProxyNode :=
  (lists.flatten.foldl dedupStep ([], [])).1

/-! ## Pool manager (manager.go, single-kind SOCKS5 manager) -/

/-- The failure counter: a finite map from address to count, embedded as an
association list with unique keys (Go map semantics restricted to the
operations the manager uses). -/
def FailureCounter := List (String × Nat)

/-- Counter keys. -/
def keysF (l : List (String × Nat)) : List String := l.map (·.1)

/-- `m.failures[key]++`: insert with count 1 or bump the existing entry. -/
def bumpF : List (String × Nat) → String → List (String × Nat)
  | [], k => [(k, 1)]
  | (a, v) :: t, k => if a = k then (a, v + 1) :: t else (a, v) :: bumpF t k

/-- Current count for a key (0 when absent, like a Go map read). -/
def getF : List (String × Nat) → String → Nat
  | [], _ => 0
  | (a, v) :: t, k => if a = k then v else getF t k

/-- `delete(m.failures, key)`. -/
def delF (l : List (String × Nat)) (k : String) : List (String × Nat) :=
  l.filter (fun p => p.1 ≠ k)

/-- manager.go `ProxyManager` state (the lock is meta-level; the refresh
timestamp is abstracted to a `Nat`). -/
structure Manager where
  pool : List ProxyNode
  currentIndex : Int
  failures : List (String × Nat)
  lastRefreshAt : Nat
  lastRefreshErr : String
deriving DecidableEq, Repr

/-- `NewProxyManager()`: the zero value. -/
def Manager.init : Manager :=
  { pool := [], currentIndex := 0, failures := [], lastRefreshAt := 0, lastRefreshErr := "" }

/-- manager.go `SetPool`: keep only SOCKS5 nodes with a nonempty address,
clamp an out-of-range cursor to 0, and reset the failure counter. -/
def Manager.SetPool (m : Manager) (nodes : List ProxyNode) : Manager :=
  let pool := nodes.filter (fun n => n.type = ProxyTypeSOCKS5 ∧ n.Addr ≠ "")
  let cur := if m.currentIndex ≥ (pool.length : Int) then 0 else m.currentIndex
  { m with pool := pool, currentIndex := cur, failures := [] }

/-- manager.go `SetRefreshResult`. -/
def Manager.SetRefreshResult (m : Manager) (at_ : Nat) (err : Option String) : Manager :=
  { m with lastRefreshAt := at_,
           lastRefreshErr := match err with | some e => e | none => "" }

/-- manager.go `Next`: advance the cursor modulo the pool size (Go's `%` is
truncated division, `Int.tmod`) and return the new current node. -/
def Manager.Next (m : Manager) : Manager × Option ProxyNode :=
  if m.pool = [] then (m, none)
  else
    let cur := (m.currentIndex + 1).tmod (m.pool.length : Int)
    ({ m with currentIndex := cur }, m.pool.get? cur.toNat)

/-- manager.go `Current`. -/
def Manager.Current (m : Manager) : Option ProxyNode :=
  if m.pool = [] then none
  else if m.currentIndex < 0 ∨ m.currentIndex ≥ (m.pool.length : Int) then none
  else m.pool.get? m.currentIndex.toNat

/-- manager.go `ReportSuccess`: drop the failure entry; a node with an empty
address is ignored. -/
def Manager.ReportSuccess (m : Manager) (node : ProxyNode) : Manager :=
  if node.Addr = "" then m
  else { m with failures := delF m.failures node.Addr }

/-- The scan of manager.go `removeLocked`: walk the pool with the running
index `i`, dropping entries whose address matches and decrementing the
cursor whenever the matching index is below the current (already adjusted)
cursor.  Returns the kept entries, the final cursor and whether anything
matched. -/
def removePass (addr : String) : List ProxyNode → Int → Int → List ProxyNode × Int × Bool
  | [], _, cur => ([], cur, false)
  | n :: t, i, cur =>
    if n.Addr = addr then
      let r := removePass addr t (i + 1) (if i < cur then cur - 1 else cur)
      (r.1, r.2.1, true)
    else
      let r := removePass addr t (i + 1) cur
      (n :: r.1, r.2.1, r.2.2)

/-- The two sequential cursor clamps at the end of manager.go `removeLocked`:
a negative cursor becomes 0, then a cursor at or past the end of a nonempty
pool becomes 0.  (When the first clamp fires the second leaves 0 unchanged,
so the sequential Go code collapses to this conditional.) -/
def clampIndex (cur : Int) (len : Nat) : Int :=
  if cur < 0 then 0
  else if cur ≥ (len : Int) ∧ 0 < len then 0
  else cur

/-- manager.go `removeLocked`: run the scan, then clamp the cursor. -/
def Manager.removeLocked (m : Manager) (addr : String) : Manager × Bool :=
  if m.pool = [] then (m, false)
  else if ¬ (removePass addr m.pool 0 m.currentIndex).2.2 then (m, false)
  else
    ({ m with
        pool := (removePass addr m.pool 0 m.currentIndex).1,
        currentIndex :=
          clampIndex (removePass addr m.pool 0 m.currentIndex).2.1
            (removePass addr m.pool 0 m.currentIndex).1.length }, true)

/-- manager.go `ReportFailure`: bump the counter (for any node, pool member
or not); at the threshold, delete the entry and evict the node. -/
def Manager.ReportFailure (m : Manager) (node : ProxyNode) (removeAfter : Int) :
    Manager × Bool :=
  if node.Addr = "" then (m, false)
  else
    let fs := bumpF m.failures node.Addr
    let m1 := { m with failures := fs }
    if removeAfter ≤ 0 ∨ (getF fs node.Addr : Int) < removeAfter then (m1, false)
    else Manager.removeLocked { m1 with failures := delF fs node.Addr } node.Addr

/-- manager.go `Remove`: unconditional removal. -/
def Manager.Remove (m : Manager) (node : ProxyNode) : Manager × Bool :=
  if node.Addr = "" then (m, false)
  else Manager.removeLocked { m with failures := delF m.failures node.Addr } node.Addr

/-- The manager's mutating operations, for reachability statements. -/
inductive MOp
  | setPool (nodes : List ProxyNode)
  | next
  | reportSuccess (n : ProxyNode)
  | reportFailure (n : ProxyNode) (removeAfter : Int)
  | remove (n : ProxyNode)
  | setRefreshResult (at_ : Nat) (err : Option String)
deriving Repr

/-- Apply one operation (return values discarded). -/
def stepM (m : Manager) : MOp → Manager
  | .setPool nodes => m.SetPool nodes
  | .next => (m.Next).1
  | .reportSuccess n => m.ReportSuccess n
  | .reportFailure n k => (m.ReportFailure n k).1
  | .remove n => (m.Remove n).1
  | .setRefreshResult a e => m.SetRefreshResult a e

/-- Run a sequence of operations. -/
def execM : Manager → List MOp → Manager
  | m, [] => m
  | m, op :: rest => execM (stepM m op) rest

/-- Addresses passed to `ReportFailure` since the last `SetPool`, scanning
the operation sequence left to right (used to bound the counter's keys). -/
def reportedSince : List String → List MOp → List String
  | acc, [] => acc
  | acc, op :: rest =>
    reportedSince
      (match op with
       | .setPool _ => []
       | .reportFailure n _ => n.Addr :: acc
       | _ => acc) rest

/-! ## Feed fetcher failure policy (dialer.go `FetchFromSources`) -/

/-- The error values `FetchFromSources` can produce.  Per-source errors are
abstract strings (the Go code wraps them with the source URL); `joined` is
`errors.Join` over them in source order. -/
inductive FetchError
  | noSources
  | emptyProxyList
  | fetchFailed
  | joined (errs : List String)
deriving DecidableEq, Repr

/-- The outcome of fetching one source: either an error or the parsed,
within-source-deduped node list (network and body parsing abstracted). -/
def SourceResult := Except String (List ProxyNode)

/-- Per-source errors in order. -/
def sourceErrs (results : List (Except String (List ProxyNode))) : List String :=
  results.filterMap (fun r => match r with | .error e => some e | .ok _ => none)

/-- Per-source successful lists in order. -/
def sourceOks (results : List (Except String (List ProxyNode))) : List (List ProxyNode) :=
  results.filterMap (fun r => match r with | .ok l => some l | .error _ => none)

/-- Whether one source fetch succeeded (its error was nil). -/
def isOkR : Except String (List ProxyNode) → Bool
  | .ok _ => true
  | .error _ => false

/-- dialer.go `FetchFromSources` given the per-source outcomes: merge the
successful lists through `MergeDedup` (the loop's `all`), then apply the
failure policy over `okAny` and the collected per-source errors. -/
def FetchFromSources (results : List (Except String (List ProxyNode))) :
    List ProxyNode × Option FetchError :=
  if results.isEmpty then ([], some .noSources)
  else if MergeDedup (sourceOks results) = [] then
    if results.any isOkR then ([], some .emptyProxyList)
    else if sourceErrs results ≠ [] then ([], some (.joined (sourceErrs results)))
    else ([], some .fetchFailed)
  else if sourceErrs results ≠ [] then
    (MergeDedup (sourceOks results), some (.joined (sourceErrs results)))
  else (MergeDedup (sourceOks results), none)

/-! ## Refresher control flow (refresher.go `Refresh`) -/

/-- The manager mutations a refresh cycle performs, in order, on every bound
manager. -/
inductive REffect
  | setPool (nodes : List ProxyNode)
  | setRefreshResult (err : Option String)
deriving DecidableEq, Repr

/-- Apply a refresh effect to a manager at abstract time `at_`. -/
def applyREffect (at_ : Nat) (m : Manager) (e : REffect) : Manager :=
  match e with
  | .setPool ns => m.SetPool ns
  | .setRefreshResult err => m.SetRefreshResult at_ err

/-- Apply a cycle's effects in order. -/
def applyREffects (at_ : Nat) (m : Manager) (es : List REffect) : Manager :=
  es.foldl (applyREffect at_) m

/-- The inputs of one refresh cycle, with the two network-dependent calls
(`FetchFromSources` and `ValidateAndFilter`) abstracted to their results:
`fetched`/`fetchErr` is the fetch outcome, `validSOCKS5`/`validationErr` the
validation outcome (`res.ValidSOCKS5` and the returned error). -/
structure RefreshInput where
  staticNodes : List ProxyNode
  fetched : List ProxyNode
  fetchErr : Option String
  validationEnabled : Bool
  validSOCKS5 : List ProxyNode
  validationErr : Option String
deriving Repr

/-- refresher.go `Refresh`: the cycle's control flow, returning the effects
applied to every bound manager plus the `(count, err)` result. -/
def Refresh (inp : RefreshInput) : List REffect × Nat × Option String :=
  if inp.fetchErr.isSome ∧ inp.staticNodes = [] then
    ([.setRefreshResult inp.fetchErr], 0, inp.fetchErr)
  else
    let nodes := MergeDedup [inp.staticNodes, inp.fetched]
    if nodes = [] then
      let err := match inp.fetchErr with | some e => some e | none => some "empty proxy list"
      ([.setRefreshResult err], 0, err)
    else if inp.validationEnabled then
      if inp.validationErr.isSome ∧ inp.validSOCKS5 = [] then
        ([.setRefreshResult inp.validationErr], 0, inp.validationErr)
      else
        let nodes2 := MergeDedup [inp.validSOCKS5]
        if nodes2 = [] then
          ([.setRefreshResult inp.validationErr], 0, inp.validationErr)
        else if inp.validationErr.isSome then
          ([.setPool nodes2, .setRefreshResult inp.validationErr], nodes2.length, inp.validationErr)
        else
          ([.setPool nodes2, .setRefreshResult inp.fetchErr], nodes2.length, inp.fetchErr)
    else
      ([.setPool nodes, .setRefreshResult inp.fetchErr], nodes.length, inp.fetchErr)

/-! ## Validator collector (validation.go `runValidation`) -/

/-- One published probe result, as read from the result channel. -/
structure ProbeResult where
  node : ProxyNode
  ok : Bool
deriving DecidableEq, Repr

/-- The collector loop of `runValidation`, folded over the sequence of
results in the order the collector observes them: count every result,
append every success, and latch the cancellation request once `keep`
successes have accumulated (the `cancel()` call; it stops dispatch and
workers but the loop itself keeps draining the buffered channel). -/
def runValidationCollectAux (keep : Int) :
    List ProbeResult → List ProxyNode → Nat → Bool → List ProxyNode × Nat × Bool
  | [], out, tested, c => (out, tested, c)
  | r :: rs, out, tested, c =>
    if r.ok then
      let out2 := out ++ [r.node]
      let c2 := if 0 < keep ∧ (keep : Int) ≤ (out2.length : Int) then true else c
      runValidationCollectAux keep rs out2 (tested + 1) c2
    else runValidationCollectAux keep rs out (tested + 1) c

/-- The collector's final `(out, tested, cancelRequested)`. -/
def runValidationCollect (keep : Int) (rs : List ProbeResult) :
    List ProxyNode × Nat × Bool :=
  runValidationCollectAux keep rs [] 0 false

/-! ## HTTP CONNECT dial path

Modelled from the spec: the repository's HTTP CONNECT dialer (the
`ProxyTypeHTTP` arm of `DialViaProxy`, §4.C of the design) is not among the
captured sources — only its callers are (the local HTTP proxy server dials
HTTP-kind upstreams through `DialViaProxy`).  The model below follows the
spec's description: reject non-TCP networks, default the target port to 443,
send the Variant 1 request, fall back to Variant 2 exactly on status 400,
405 or 501, and succeed exactly when a variant's status line parses to 200
and its headers end with a blank line.  The proxy's behaviour is abstracted
as a reply function from requests to replies. -/

/-- The observable shape of one CONNECT request variant. -/
structure ConnectRequest where
  httpVersion : String
  target : String
  hostHeader : String
  hasProxyConnection : Bool
  hasUserAgent : Bool
  hasProxyAuth : Bool
deriving DecidableEq, Repr

/-- The proxy's reply to one variant: the parsed status code (`none` for a
malformed status line) and whether the headers ended with a blank line. -/
structure ConnectReply where
  status : Option Nat
  blankTerminated : Bool
deriving DecidableEq, Repr

/-- Modelled from the spec: add `":443"` when the target lacks a port
(detected, as elsewhere in the repo, by `net.SplitHostPort` failing). -/
def ensureTargetPort (addr : String) : String :=
  match goSplitHostPort addr.data with
  | some _ => addr
  | none => addr ++ ":443"

/-- The hostname-without-port used for Variant 2's `Host:` header. -/
def connectHostOnly (addr : String) : String :=
  match goSplitHostPort addr.data with
  | some hp => String.mk hp.1
  | none => addr

/-- Modelled from the spec: the two CONNECT request variants.  Variant 1 is
HTTP/1.1 with `Host:` = host:port, `Proxy-Connection` and `User-Agent`;
Variant 2 is HTTP/1.0 with `Host:` = hostname only and neither header. -/
def mkConnectRequest (variant : Nat) (target : String) (hasCreds : Bool) : ConnectRequest :=
  if variant = 1 then
    { httpVersion := "HTTP/1.1", target := target, hostHeader := target,
      hasProxyConnection := true, hasUserAgent := true, hasProxyAuth := hasCreds }
  else
    { httpVersion := "HTTP/1.0", target := target, hostHeader := connectHostOnly target,
      hasProxyConnection := false, hasUserAgent := false, hasProxyAuth := hasCreds }

/-- A variant succeeds iff the status line parsed, the code is 200 and the
headers ended with a blank line. -/
def connectReplyOK (r : ConnectReply) : Bool :=
  r.status == some 200 && r.blankTerminated

/-- The status codes that trigger the Variant 2 fallback. -/
def fallbackStatus (r : ConnectReply) : Bool :=
  r.status == some 400 || r.status == some 405 || r.status == some 501

/-- The outcome of the CONNECT dial. -/
inductive ConnectOutcome
  | connected (variant : Nat)
  | handshakeFailed (variant : Nat) (r : ConnectReply)
  | badNetwork
deriving DecidableEq, Repr

/-- Modelled from the spec: the HTTP CONNECT dial path.  Returns the outcome
together with the requests actually sent, in order. -/
def dialHTTPConnect (network addr : String) (hasCreds : Bool)
    (reply : ConnectRequest → ConnectReply) : ConnectOutcome × List ConnectRequest :=
  if network ≠ "tcp" ∧ network ≠ "tcp4" ∧ network ≠ "tcp6" then (.badNetwork, [])
  else
    let target := ensureTargetPort addr
    let req1 := mkConnectRequest 1 target hasCreds
    let r1 := reply req1
    if connectReplyOK r1 then (.connected 1, [req1])
    else if fallbackStatus r1 then
      let req2 := mkConnectRequest 2 target hasCreds
      let r2 := reply req2
      if connectReplyOK r2 then (.connected 2, [req1, req2])
      else (.handshakeFailed 2 r2, [req1, req2])
    else (.handshakeFailed 1 r1, [req1])

/-! ## Derived predicates used in the statements -/

/-- A node with the three identity fields nonempty — the shape of every node
the parser emits and the only nodes `MergeDedup` keeps. -/
def nodeWF (n : ProxyNode) : Prop := n.ip ≠ "" ∧ n.port ≠ "" ∧ n.type ≠ ""

instance (n : ProxyNode) : Decidable (nodeWF n) := by
  unfold nodeWF; exact inferInstance

/-- A node as `MergeDedup` emits it: well-formed identity, `ID` rebuilt from
it, latency off the zero sentinel. -/
def normalizedNode (n : ProxyNode) : Prop :=
  nodeWF n ∧ n.id = n.ip ++ ":" ++ n.port ∧ n.latencyMS ≠ 0

instance (n : ProxyNode) : Decidable (normalizedNode n) := by
  unfold normalizedNode; exact inferInstance

/-- The successful probe results of an observed result sequence, in order. -/
def observedSuccesses (rs : List ProbeResult) : List ProxyNode :=
  (rs.filter (·.ok)).map (·.node)

/-- The identity tuple on which the spec compares `MergeDedup` outputs. -/
def idTuple (n : ProxyNode) : String × String × String := (n.type, n.ip, n.port)

/-- The cursor invariant of the manager: nonnegative, and within range
whenever the pool is nonempty. -/
def ManagerInv (m : Manager) : Prop :=
  0 ≤ m.currentIndex ∧ (m.pool ≠ [] → m.currentIndex < (m.pool.length : Int))

instance (m : Manager) : Decidable (ManagerInv m) := by
  unfold ManagerInv; exact inferInstance

/-- A concrete SOCKS5 test node (used to instantiate theorems). -/
def nodeA : ProxyNode :=
  { id := "1.2.3.4:80", type := "socks5", ip := "1.2.3.4", port := "80",
    user := "", pass := "", country := "", latencyMS := -1 }

/-- A second concrete SOCKS5 test node with a different address. -/
def nodeB : ProxyNode :=
  { id := "5.6.7.8:80", type := "socks5", ip := "5.6.7.8", port := "80",
    user := "", pass := "", country := "", latencyMS := -1 }

/-- A node whose `Addr()` is empty (empty IP). -/
def nodeEmpty : ProxyNode :=
  { id := "", type := "socks5", ip := "", port := "1080",
    user := "", pass := "", country := "", latencyMS := -1 }

/-- A concrete proxy behaviour: answer 400 to the HTTP/1.1 variant and 200
with blank-terminated headers to anything else (used to instantiate the
CONNECT theorem). -/
def replyFB : ConnectRequest → ConnectReply :=
  fun q => if q.httpVersion = "HTTP/1.1" then ⟨some 400, true⟩ else ⟨some 200, true⟩

/-! # Theorems -/

/-! ## `MergeDedup` lemmas -/

theorem dedupStep_cases3 (acc : List ProxyNode × List String) (n : ProxyNode) :
    (¬ nodeWF n ∧ dedupStep acc n = acc) ∨
    (nodeWF n ∧ dedupKey n ∈ acc.2 ∧ dedupStep acc n = acc) ∨
    (nodeWF n ∧ dedupKey n ∉ acc.2 ∧
      dedupStep acc n = (acc.1 ++ [normalizeNode n], dedupKey n :: acc.2)) := by
  unfold dedupStep
  split
  · exact Or.inl ⟨by unfold nodeWF; tauto, rfl⟩
  · rename_i hna
    have hwf : nodeWF n := by unfold nodeWF; push_neg at hna; exact hna
    split
    · exact Or.inr (Or.inl ⟨hwf, by assumption, rfl⟩)
    · exact Or.inr (Or.inr ⟨hwf, by assumption, rfl⟩)

theorem dedup_foldl_extends (l : List ProxyNode) :
    ∀ out seen, ∃ t, (l.foldl dedupStep (out, seen)).1 = out ++ t := by
  induction l with
  | nil => intro out seen; exact ⟨[], by simp⟩
  | cons x t ih =>
    intro out seen
    rcases dedupStep_cases3 (out, seen) x with ⟨_, h⟩ | ⟨_, _, h⟩ | ⟨_, _, h⟩
    · simpa [h] using ih out seen
    · simpa [h] using ih out seen
    · rcases ih (out ++ [normalizeNode x]) (dedupKey x :: seen) with ⟨u, hu⟩
      exact ⟨normalizeNode x :: u, by simp only [List.foldl_cons, h, hu, List.append_assoc,
        List.singleton_append]⟩

theorem dedupStep_empty_iff (acc : List ProxyNode × List String) (n : ProxyNode)
    (h : acc.1 = [] ↔ acc.2 = []) :
    ((dedupStep acc n).1 = [] ↔ (dedupStep acc n).2 = []) := by
  rcases dedupStep_cases3 acc n with ⟨_, h2⟩ | ⟨_, _, h2⟩ | ⟨_, _, h2⟩ <;> simp [h2, h]

theorem dedup_foldl_ne_nil (l : List ProxyNode) :
    ∀ out seen, (out = [] ↔ seen = []) → ∀ n ∈ l, nodeWF n →
      (l.foldl dedupStep (out, seen)).1 ≠ [] := by
  induction l with
  | nil => intro out seen _ n hn; simp at hn
  | cons x t ih =>
    intro out seen hiff n hn hwf
    have hout_ne : ∀ u : List ProxyNode, out ≠ [] →
        out ++ u ≠ ([] : List ProxyNode) := by
      intro u ho hc
      rcases List.append_eq_nil.mp hc with ⟨h1, _⟩
      exact ho h1
    rcases dedupStep_cases3 (out, seen) x with ⟨hnw, h⟩ | ⟨_, hk, h⟩ | ⟨_, _, h⟩
    · rcases List.mem_cons.mp hn with rfl | hnt
      · exact absurd hwf hnw
      · simp only [List.foldl_cons, h]
        exact ih out seen hiff n hnt hwf
    · have hseen : seen ≠ [] := by
        intro hc; rw [hc] at hk; simp at hk
      have hout : out ≠ [] := by
        intro hc; exact hseen (hiff.mp hc)
      rcases dedup_foldl_extends t out seen with ⟨u, hu⟩
      simp only [List.foldl_cons, h, hu]
      exact hout_ne u hout
    · rcases dedup_foldl_extends t (out ++ [normalizeNode x]) (dedupKey x :: seen) with ⟨u, hu⟩
      simp only [List.foldl_cons, h, hu]
      intro hc
      rcases List.append_eq_nil.mp hc with ⟨h1, _⟩
      rcases List.append_eq_nil.mp h1 with ⟨_, h2⟩
      exact List.cons_ne_nil _ _ h2

theorem dedupKey_normalize (n : ProxyNode) : dedupKey (normalizeNode n) = dedupKey n := rfl

theorem normalizeNode_normalized (n : ProxyNode) (h : nodeWF n) :
    normalizedNode (normalizeNode n) := by
  rcases h with ⟨h1, h2, h3⟩
  unfold normalizedNode nodeWF normalizeNode
  refine ⟨⟨h1, h2, h3⟩, rfl, ?_⟩
  dsimp only
  split
  · decide
  · assumption

theorem normalizeNode_id (n : ProxyNode) (h : normalizedNode n) : normalizeNode n = n := by
  rcases h with ⟨_, hid, hlat⟩
  unfold normalizeNode
  cases n
  simp_all

theorem dedup_foldl_fresh (l : List ProxyNode) :
    ∀ out seen, (∀ n ∈ l, normalizedNode n) → (l.map dedupKey).Nodup →
      (∀ n ∈ l, dedupKey n ∉ seen) →
      l.foldl dedupStep (out, seen) = (out ++ l, (l.map dedupKey).reverse ++ seen) := by
  induction l with
  | nil => intro out seen _ _ _; simp
  | cons x t ih =>
    intro out seen hnorm hnd hfresh
    have hwx : normalizedNode x := hnorm x (by simp)
    have hkey : dedupKey x ∉ seen := hfresh x (by simp)
    have hstep : dedupStep (out, seen) x = (out ++ [x], dedupKey x :: seen) := by
      unfold dedupStep
      rw [if_neg, if_neg hkey, normalizeNode_id x hwx]
      rcases hwx with ⟨⟨h1, h2, h3⟩, _, _⟩
      tauto
    have hndt : (t.map dedupKey).Nodup := (List.nodup_cons.mp (by simpa using hnd)).2
    have hxnott : dedupKey x ∉ t.map dedupKey := (List.nodup_cons.mp (by simpa using hnd)).1
    rw [List.foldl_cons, hstep,
      ih (out ++ [x]) (dedupKey x :: seen) (fun n hn => hnorm n (by simp [hn])) hndt ?_]
    · simp
    · intro n hn
      simp only [List.mem_cons, not_or]
      constructor
      · intro hc
        exact hxnott (hc ▸ List.mem_map_of_mem dedupKey hn)
      · exact hfresh n (by simp [hn])

theorem dedup_foldl_out (l : List ProxyNode) :
    ∀ out seen, (∀ n ∈ out, normalizedNode n) → (out.map dedupKey).Nodup →
      (∀ n ∈ out, dedupKey n ∈ seen) →
      (∀ n ∈ (l.foldl dedupStep (out, seen)).1, normalizedNode n) ∧
      ((l.foldl dedupStep (out, seen)).1.map dedupKey).Nodup ∧
      (∀ n ∈ (l.foldl dedupStep (out, seen)).1, dedupKey n ∈ (l.foldl dedupStep (out, seen)).2) := by
  induction l with
  | nil => intro out seen h1 h2 h3; exact ⟨h1, h2, h3⟩
  | cons x t ih =>
    intro out seen h1 h2 h3
    rcases dedupStep_cases3 (out, seen) x with ⟨_, h⟩ | ⟨_, _, h⟩ | ⟨hwf, hk, h⟩
    · simp only [List.foldl_cons, h]; exact ih out seen h1 h2 h3
    · simp only [List.foldl_cons, h]; exact ih out seen h1 h2 h3
    · simp only [List.foldl_cons, h]
      refine ih (out ++ [normalizeNode x]) (dedupKey x :: seen) ?_ ?_ ?_
      · intro n hn
        rcases List.mem_append.mp hn with hno | hnx
        · exact h1 n hno
        · rcases List.mem_singleton.mp hnx with rfl
          exact normalizeNode_normalized x hwf
      · have hnotmem : dedupKey x ∉ out.map dedupKey := by
          intro hc
          rcases List.mem_map.mp hc with ⟨n, hn, hkn⟩
          exact hk (hkn ▸ h3 n hn)
        simp only [List.map_append, List.map_singleton, dedupKey_normalize]
        rw [List.nodup_append]
        refine ⟨h2, List.nodup_singleton _, ?_⟩
        intro a ha hb
        rcases List.mem_singleton.mp hb with rfl
        exact hnotmem ha
      · intro n hn
        rcases List.mem_append.mp hn with hno | hnx
        · exact List.mem_cons_of_mem _ (h3 n hno)
        · rcases List.mem_singleton.mp hnx with rfl
          rw [dedupKey_normalize]
          exact List.mem_cons_self _ _

theorem mergeDedup_single (xs : List ProxyNode) :
    MergeDedup [xs] = (xs.foldl dedupStep ([], [])).1 := by
  unfold MergeDedup
  simp

/-- C9: `MergeDedup` is idempotent: re-running it on its own output returns
the output unchanged — in particular unchanged pointwise on the
`(kind, ip, port)` identity tuples. -/
theorem mergeDedup_idempotent (xs : List ProxyNode) :
    MergeDedup [MergeDedup [xs]] = MergeDedup [xs] ∧
    (MergeDedup [MergeDedup [xs]]).map idTuple = (MergeDedup [xs]).map idTuple := by
  have hout := dedup_foldl_out xs [] [] (by simp) (by simp) (by simp)
  rw [← mergeDedup_single] at hout
  have heq : MergeDedup [MergeDedup [xs]] = MergeDedup [xs] := by
    rw [mergeDedup_single (MergeDedup [xs])]
    rw [dedup_foldl_fresh _ [] [] hout.1 hout.2.1 (by simp)]
    simp
  exact ⟨heq, by rw [heq]⟩

/-! ## Manager lemmas -/

theorem removePass_cursor_bounds (addr : String) (l : List ProxyNode) :
    ∀ i cur : Int, 0 ≤ i → 0 ≤ cur →
      0 ≤ (removePass addr l i cur).2.1 ∧ (removePass addr l i cur).2.1 ≤ cur := by
  induction l with
  | nil => intro i cur _ hc; exact ⟨hc, le_refl _⟩
  | cons n t ih =>
    intro i cur hi hc
    simp only [removePass]
    split
    · dsimp only
      by_cases hlt : i < cur
      · rw [if_pos hlt]
        have := ih (i + 1) (cur - 1) (by omega) (by omega)
        exact ⟨this.1, by omega⟩
      · rw [if_neg hlt]
        exact ih (i + 1) cur (by omega) hc
    · dsimp only
      exact ih (i + 1) cur (by omega) hc

theorem clampIndex_nonneg (cur : Int) (len : Nat) : 0 ≤ clampIndex cur len := by
  unfold clampIndex
  split_ifs <;> omega

theorem clampIndex_lt (cur : Int) (len : Nat) (h : 0 < len) :
    clampIndex cur len < (len : Int) := by
  unfold clampIndex
  split_ifs <;> omega

theorem removeLocked_inv (m : Manager) (addr : String) (h : ManagerInv m) :
    ManagerInv (m.removeLocked addr).1 := by
  unfold Manager.removeLocked
  split
  · exact h
  · split
    · exact h
    · constructor
      · exact clampIndex_nonneg _ _
      · intro hne
        exact clampIndex_lt _ _ (List.length_pos.mpr hne)

theorem setPool_inv (m : Manager) (ns : List ProxyNode) (h : ManagerInv m) :
    ManagerInv (m.SetPool ns) := by
  have h1 := h.1
  simp only [Manager.SetPool, ManagerInv]
  constructor
  · split_ifs <;> omega
  · intro hne
    have hlen := List.length_pos.mpr hne
    split_ifs <;> omega

theorem next_inv (m : Manager) (h : ManagerInv m) : ManagerInv (m.Next).1 := by
  have h1 := h.1
  unfold Manager.Next
  split
  · exact h
  · rename_i hne
    have hlen : 0 < (m.pool.length : Int) := by
      have := List.length_pos.mpr hne
      exact_mod_cast this
    constructor
    · dsimp only
      rw [Int.tmod_eq_emod (by omega) (by omega)]
      exact Int.emod_nonneg _ (by omega)
    · intro _
      dsimp only
      rw [Int.tmod_eq_emod (by omega) (by omega)]
      exact Int.emod_lt_of_pos _ hlen

theorem reportFailure_inv (m : Manager) (n : ProxyNode) (k : Int) (h : ManagerInv m) :
    ManagerInv (m.ReportFailure n k).1 := by
  unfold Manager.ReportFailure
  split
  · exact h
  · dsimp only
    split
    · exact h
    · exact removeLocked_inv _ _ ⟨h.1, h.2⟩

theorem remove_inv (m : Manager) (n : ProxyNode) (h : ManagerInv m) :
    ManagerInv (m.Remove n).1 := by
  unfold Manager.Remove
  split
  · exact h
  · exact removeLocked_inv _ _ ⟨h.1, h.2⟩

theorem reportSuccess_inv (m : Manager) (n : ProxyNode) (h : ManagerInv m) :
    ManagerInv (m.ReportSuccess n) := by
  unfold Manager.ReportSuccess
  split
  · exact h
  · exact ⟨h.1, h.2⟩

theorem stepM_inv (m : Manager) (op : MOp) (h : ManagerInv m) : ManagerInv (stepM m op) := by
  cases op with
  | setPool ns => exact setPool_inv m ns h
  | next => exact next_inv m h
  | reportSuccess n => exact reportSuccess_inv m n h
  | reportFailure n k => exact reportFailure_inv m n k h
  | remove n => exact remove_inv m n h
  | setRefreshResult a e => exact ⟨h.1, h.2⟩

theorem execM_inv (ops : List MOp) : ∀ m, ManagerInv m → ManagerInv (execM m ops) := by
  induction ops with
  | nil => intro m h; exact h
  | cons op rest ih => intro m h; exact ih (stepM m op) (stepM_inv m op h)

theorem removePass_nomatch_all (addr : String) (l : List ProxyNode)
    (h : ∀ n ∈ l, n.Addr ≠ addr) :
    ∀ i cur : Int, removePass addr l i cur = (l, cur, false) := by
  induction l with
  | nil => intro i cur; rfl
  | cons n t ih =>
    intro i cur
    have hn : ¬ n.Addr = addr := h n (by simp)
    simp only [removePass, if_neg hn]
    rw [ih (fun x hx => h x (by simp [hx])) (i + 1) cur]

theorem removePass_single (addr : String) (x : ProxyNode) (hx : x.Addr = addr)
    (l₂ : List ProxyNode) (h2 : ∀ n ∈ l₂, n.Addr ≠ addr) :
    ∀ (l₁ : List ProxyNode), (∀ n ∈ l₁, n.Addr ≠ addr) → ∀ i cur : Int,
      removePass addr (l₁ ++ x :: l₂) i cur =
        (l₁ ++ l₂, (if i + (l₁.length : Int) < cur then cur - 1 else cur), true) := by
  intro l₁
  induction l₁ with
  | nil =>
    intro _ i cur
    simp only [List.nil_append, removePass, if_pos hx]
    rw [removePass_nomatch_all addr l₂ h2 (i + 1)]
    simp
  | cons n t ih =>
    intro h1 i cur
    have hn : ¬ n.Addr = addr := h1 n (by simp)
    simp only [List.cons_append, removePass, if_neg hn, List.append_eq]
    rw [ih (fun y hy => h1 y (by simp [hy])) (i + 1) cur]
    have harith : i + 1 + (t.length : Int) = i + ((n :: t).length : Int) := by
      simp only [List.length_cons]
      push_cast
      ring
    rw [harith]

/-- The cursor mechanics of a removal that matches exactly one pool entry:
the entry is dropped; a cursor strictly after the removed index is
decremented; an emptied pool leaves the cursor at 0; a cursor left out of
range of a nonempty pool is reset to 0; in all cases the invariant holds. -/
theorem removeLocked_single (m : Manager) (addr : String) (x : ProxyNode)
    (l₁ l₂ : List ProxyNode) (hpool : m.pool = l₁ ++ x :: l₂) (hx : x.Addr = addr)
    (h1 : ∀ n ∈ l₁, n.Addr ≠ addr) (h2 : ∀ n ∈ l₂, n.Addr ≠ addr)
    (hinv : 0 ≤ m.currentIndex ∧ m.currentIndex < (m.pool.length : Int)) :
    (m.removeLocked addr).2 = true ∧
    (m.removeLocked addr).1.pool = l₁ ++ l₂ ∧
    ((l₁.length : Int) < m.currentIndex →
      (m.removeLocked addr).1.currentIndex = m.currentIndex - 1) ∧
    (l₁ ++ l₂ = [] → (m.removeLocked addr).1.currentIndex = 0) ∧
    (¬ (l₁.length : Int) < m.currentIndex →
      m.currentIndex < ((l₁ ++ l₂).length : Int) →
      (m.removeLocked addr).1.currentIndex = m.currentIndex) ∧
    (¬ (l₁.length : Int) < m.currentIndex → l₁ ++ l₂ ≠ [] →
      ((l₁ ++ l₂).length : Int) ≤ m.currentIndex →
      (m.removeLocked addr).1.currentIndex = 0) := by
  have hne : ¬ (l₁ ++ x :: l₂ = []) := by
    intro hc
    rcases List.append_eq_nil.mp hc with ⟨_, hcc⟩
    exact List.cons_ne_nil _ _ hcc
  have hpass := removePass_single addr x hx l₂ h2 l₁ h1 0 m.currentIndex
  have hcur0 := hinv.1
  have hcurlt := hinv.2
  rw [hpool] at hcurlt
  have hlenpool : ((l₁ ++ x :: l₂).length : Int) = (l₁.length : Int) + (l₂.length : Int) + 1 := by
    simp only [List.length_append, List.length_cons]
    push_cast
    ring
  have hlen12 : ((l₁ ++ l₂).length : Int) = (l₁.length : Int) + (l₂.length : Int) := by
    simp [List.length_append]
  unfold Manager.removeLocked
  rw [hpool, if_neg hne, hpass]
  dsimp only
  rw [if_neg (by simp)]
  dsimp only
  refine ⟨rfl, rfl, ?_, ?_, ?_, ?_⟩
  · intro hlt
    unfold clampIndex
    split_ifs <;> omega
  · intro hnil
    have h0 : ((l₁ ++ l₂).length : Int) = 0 := by rw [hnil]; simp
    unfold clampIndex
    split_ifs <;> omega
  · intro hge hlt
    unfold clampIndex
    split_ifs <;> omega
  · intro hge hne12 hout
    have hpos : 0 < (l₁ ++ l₂).length := List.length_pos.mpr hne12
    unfold clampIndex
    split_ifs <;> omega

/-- C3 (amended): in every reachable manager state the cursor is
nonnegative and in `[0, len(pool))` whenever the pool is nonempty; and when a
removal matches exactly one pool entry (the situation the spec describes —
pools installed by the refresher never repeat an address), the cursor is
decremented iff the removed index was strictly before it, an emptied pool
leaves the cursor at 0, a cursor left beyond a nonempty pool is reset to 0,
and an in-range cursor at or before the removed index is unchanged. -/
theorem manager_cursor_invariant :
    (∀ ops : List MOp,
       (execM Manager.init ops).pool ≠ [] →
       0 ≤ (execM Manager.init ops).currentIndex ∧
       (execM Manager.init ops).currentIndex < ((execM Manager.init ops).pool.length : Int)) ∧
    (∀ (m : Manager) (addr : String) (x : ProxyNode) (l₁ l₂ : List ProxyNode),
       m.pool = l₁ ++ x :: l₂ → x.Addr = addr →
       (∀ n ∈ l₁, n.Addr ≠ addr) → (∀ n ∈ l₂, n.Addr ≠ addr) →
       0 ≤ m.currentIndex → m.currentIndex < (m.pool.length : Int) →
       (m.removeLocked addr).2 = true ∧
       (m.removeLocked addr).1.pool = l₁ ++ l₂ ∧
       ((l₁.length : Int) < m.currentIndex →
         (m.removeLocked addr).1.currentIndex = m.currentIndex - 1) ∧
       (l₁ ++ l₂ = [] → (m.removeLocked addr).1.currentIndex = 0) ∧
       (¬ (l₁.length : Int) < m.currentIndex →
         m.currentIndex < ((l₁ ++ l₂).length : Int) →
         (m.removeLocked addr).1.currentIndex = m.currentIndex) ∧
       (¬ (l₁.length : Int) < m.currentIndex → l₁ ++ l₂ ≠ [] →
         ((l₁ ++ l₂).length : Int) ≤ m.currentIndex →
         (m.removeLocked addr).1.currentIndex = 0)) := by
  constructor
  · intro ops hne
    have h0 : ManagerInv Manager.init := ⟨le_refl 0, fun h => absurd rfl h⟩
    have h := execM_inv ops Manager.init h0
    exact ⟨h.1, h.2 hne⟩
  · intro m addr x l₁ l₂ hp hx h1 h2 hc0 hlt
    exact removeLocked_single m addr x l₁ l₂ hp hx h1 h2 ⟨hc0, hlt⟩

/-- C3 counterexample: with three pool entries sharing one address, removing
that address succeeds, empties the pool, and leaves the cursor at 1 — not 0
as the claim requires on the path "set to 0 when the pool becomes empty". -/
theorem manager_cursor_counterexample :
    ((execM Manager.init [.setPool [nodeA, nodeA, nodeA], .next, .next]).Remove nodeA).2 = true ∧
    (execM Manager.init [.setPool [nodeA, nodeA, nodeA], .next, .next, .remove nodeA]).pool = [] ∧
    (execM Manager.init [.setPool [nodeA, nodeA, nodeA], .next, .next, .remove nodeA]).currentIndex = 1 := by
  decide

/-- Witness for `manager_cursor_invariant` at concrete inputs. -/
theorem manager_cursor_invariant_witness :
    (0 ≤ (execM Manager.init [MOp.setPool [nodeA, nodeB], MOp.next]).currentIndex ∧
      (execM Manager.init [MOp.setPool [nodeA, nodeB], MOp.next]).currentIndex <
        ((execM Manager.init [MOp.setPool [nodeA, nodeB], MOp.next]).pool.length : Int)) ∧
    (Manager.removeLocked ⟨[nodeA, nodeB], 1, [], 0, ""⟩ "1.2.3.4:80").2 = true :=
  ⟨manager_cursor_invariant.1 [MOp.setPool [nodeA, nodeB], MOp.next] (by decide),
   (manager_cursor_invariant.2 ⟨[nodeA, nodeB], 1, [], 0, ""⟩ "1.2.3.4:80" nodeA [] [nodeB]
      (by decide) (by decide) (by decide) (by decide) (by decide) (by decide)).1⟩

/-! ## Failure-counter lemmas (C4) -/

theorem keysF_delF (l : List (String × Nat)) (k : String) :
    ∀ a ∈ keysF (delF l k), a ∈ keysF l := by
  intro a ha
  rcases List.mem_map.mp ha with ⟨p, hp, rfl⟩
  exact List.mem_map_of_mem _ (List.mem_of_mem_filter hp)

theorem keysF_bumpF (l : List (String × Nat)) (k : String) :
    ∀ a ∈ keysF (bumpF l k), a ∈ k :: keysF l := by
  induction l with
  | nil =>
    intro a ha
    simp only [bumpF, keysF, List.map_cons, List.map_nil, List.mem_singleton] at ha
    simp [ha]
  | cons p t ih =>
    rcases p with ⟨b, v⟩
    intro a ha
    simp only [bumpF] at ha
    by_cases hb : b = k
    · rw [if_pos hb] at ha
      simp only [keysF, List.map_cons, List.mem_cons] at ha ⊢
      tauto
    · rw [if_neg hb] at ha
      simp only [keysF, List.map_cons, List.mem_cons] at ha ⊢
      rcases ha with rfl | hat
      · tauto
      · have := ih a hat
        simp only [List.mem_cons] at this
        tauto

theorem removeLocked_failures (m : Manager) (addr : String) :
    (m.removeLocked addr).1.failures = m.failures := by
  unfold Manager.removeLocked
  split
  · rfl
  · split <;> rfl

theorem next_failures (m : Manager) : (m.Next).1.failures = m.failures := by
  unfold Manager.Next
  split <;> rfl

theorem execM_keys (ops : List MOp) :
    ∀ (m : Manager) (acc : List String),
      (∀ a ∈ keysF m.failures, a ∈ acc) →
      ∀ a ∈ keysF (execM m ops).failures, a ∈ reportedSince acc ops := by
  induction ops with
  | nil => intro m acc h a ha; exact h a ha
  | cons op rest ih =>
    intro m acc h
    show ∀ a ∈ keysF (execM (stepM m op) rest).failures, _
    cases op with
    | setPool ns =>
      refine ih (stepM m (.setPool ns)) [] ?_
      intro a ha
      simp [stepM, Manager.SetPool, keysF] at ha
    | next =>
      refine ih _ acc ?_
      intro a ha
      rw [show stepM m MOp.next = (m.Next).1 from rfl, next_failures] at ha
      exact h a ha
    | reportSuccess n =>
      refine ih _ acc ?_
      intro a ha
      have hsub : a ∈ keysF m.failures := by
        simp only [stepM, Manager.ReportSuccess] at ha
        split at ha
        · exact ha
        · exact keysF_delF m.failures n.Addr a ha
      exact h a hsub
    | reportFailure n k =>
      refine ih _ (n.Addr :: acc) ?_
      intro a ha
      simp only [stepM, Manager.ReportFailure] at ha
      split at ha
      · exact List.mem_cons_of_mem _ (h a ha)
      · split at ha
        · have := keysF_bumpF m.failures n.Addr a ha
          rcases List.mem_cons.mp this with rfl | hmem
          · exact List.mem_cons_self _ _
          · exact List.mem_cons_of_mem _ (h a hmem)
        · rw [removeLocked_failures] at ha
          have ha2 := keysF_delF _ _ a ha
          have := keysF_bumpF m.failures n.Addr a ha2
          rcases List.mem_cons.mp this with rfl | hmem
          · exact List.mem_cons_self _ _
          · exact List.mem_cons_of_mem _ (h a hmem)
    | remove n =>
      refine ih _ acc ?_
      intro a ha
      simp only [stepM, Manager.Remove] at ha
      split at ha
      · exact h a ha
      · rw [removeLocked_failures] at ha
        exact h a (keysF_delF m.failures n.Addr a ha)
    | setRefreshResult t e =>
      refine ih _ acc ?_
      intro a ha
      exact h a ha

theorem execM_append (a b : List MOp) : ∀ m, execM m (a ++ b) = execM (execM m a) b := by
  induction a with
  | nil => intro m; rfl
  | cons op rest ih => intro m; exact ih (stepM m op)

/-- C4 (amended): every key of the failure counter is the address of some
node passed to `ReportFailure` since the last `SetPool` (`ReportFailure`
does not check pool membership, so keys need not be pool identities); and
immediately after any `SetPool` the counter is empty. -/
theorem failureCounter_keys :
    (∀ ops : List MOp, ∀ a ∈ keysF (execM Manager.init ops).failures,
       a ∈ reportedSince [] ops) ∧
    (∀ (ops : List MOp) (ns : List ProxyNode),
       (execM Manager.init (ops ++ [MOp.setPool ns])).failures = []) := by
  constructor
  · intro ops
    refine execM_keys ops Manager.init [] ?_
    intro a ha
    simp [Manager.init, keysF] at ha
  · intro ops ns
    rw [execM_append]
    rfl

/-- C4 counterexample: after `SetPool []` followed by
`ReportFailure(nodeA, 5)`, the counter holds the key `"1.2.3.4:80"` while the
pool is empty — the keys are not a subset of pool identities. -/
theorem failureCounter_keys_counterexample :
    ¬ (∀ a ∈ keysF (execM Manager.init [MOp.setPool [], MOp.reportFailure nodeA 5]).failures,
        ∃ n ∈ (execM Manager.init [MOp.setPool [], MOp.reportFailure nodeA 5]).pool,
          n.Addr = a) := by
  decide

/-- Witness for `failureCounter_keys` at concrete inputs. -/
theorem failureCounter_keys_witness :
    "1.2.3.4:80" ∈ reportedSince [] [MOp.reportFailure nodeA 5] ∧
    (execM Manager.init ([MOp.reportFailure nodeA 5] ++ [MOp.setPool [nodeA]])).failures = [] :=
  ⟨failureCounter_keys.1 [MOp.reportFailure nodeA 5] "1.2.3.4:80" (by decide),
   failureCounter_keys.2 [MOp.reportFailure nodeA 5] [nodeA]⟩

/-- C10: manager operations on a node whose `Addr()` is empty are no-ops:
the whole manager state (pool, cursor, failure counter) is unchanged and
`ReportFailure` and `Remove` return `false`. -/
theorem emptyAddr_ops_noop (m : Manager) (n : ProxyNode) (k : Int) (h : n.Addr = "") :
    m.ReportSuccess n = m ∧ m.ReportFailure n k = (m, false) ∧ m.Remove n = (m, false) := by
  unfold Manager.ReportSuccess Manager.ReportFailure Manager.Remove
  simp [h]

/-- Witness for `emptyAddr_ops_noop` at concrete inputs. -/
theorem emptyAddr_ops_noop_witness :
    Manager.init.ReportSuccess nodeEmpty = Manager.init ∧
    Manager.init.ReportFailure nodeEmpty 2 = (Manager.init, false) ∧
    Manager.init.Remove nodeEmpty = (Manager.init, false) :=
  emptyAddr_ops_noop Manager.init nodeEmpty 2 (by decide)

/-! ## Refresher (C2) -/

/-- C2: a refresh cycle whose result count is 0 — which covers every
error-with-no-usable-candidates path (fetch failure with no statics, empty
merged list, validation returning an empty result with an error) — emits no
`SetPool` effect, so applying its effects to any bound manager leaves the
pool, cursor and failure counter untouched; only the refresh record changes. -/
theorem refresh_failure_preserves_pool (inp : RefreshInput) (m : Manager) (at_ : Nat)
    (h : (Refresh inp).2.1 = 0) :
    (∀ e ∈ (Refresh inp).1, ∀ ns, e ≠ .setPool ns) ∧
    (applyREffects at_ m (Refresh inp).1).pool = m.pool ∧
    (applyREffects at_ m (Refresh inp).1).currentIndex = m.currentIndex ∧
    (applyREffects at_ m (Refresh inp).1).failures = m.failures := by
  simp only [Refresh] at h ⊢
  split_ifs at h ⊢ <;>
    first
    | (exfalso
       rename_i hne _
       exact absurd (List.length_eq_zero.mp h) hne)
    | (refine ⟨?_, rfl, rfl, rfl⟩
       intro e he ns
       simp only [List.mem_singleton] at he
       subst he
       intro hc
       cases hc)

/-- Witness for `refresh_failure_preserves_pool` at a concrete failing
cycle. -/
theorem refresh_failure_preserves_pool_witness :
    (applyREffects 0 Manager.init (Refresh ⟨[], [], some "boom", false, [], none⟩).1).pool =
      Manager.init.pool ∧
    (applyREffects 0 Manager.init (Refresh ⟨[], [], some "boom", false, [], none⟩).1).failures =
      Manager.init.failures :=
  ⟨(refresh_failure_preserves_pool ⟨[], [], some "boom", false, [], none⟩ Manager.init 0
      (by decide)).2.1,
   (refresh_failure_preserves_pool ⟨[], [], some "boom", false, [], none⟩ Manager.init 0
      (by decide)).2.2.2⟩

/-! ## Validator collector (C5) -/

theorem collectAux_out (keep : Int) (rs : List ProbeResult) :
    ∀ out tested c,
      (runValidationCollectAux keep rs out tested c).1 = out ++ observedSuccesses rs := by
  induction rs with
  | nil =>
    intro out tested c
    simp [runValidationCollectAux, observedSuccesses]
  | cons r rs ih =>
    intro out tested c
    by_cases hok : r.ok
    · simp only [runValidationCollectAux, if_pos hok]
      rw [ih]
      simp [observedSuccesses, List.filter_cons, hok]
    · simp only [runValidationCollectAux, if_neg hok]
      rw [ih]
      simp [observedSuccesses, List.filter_cons, hok]

theorem collectAux_tested (keep : Int) (rs : List ProbeResult) :
    ∀ out tested c,
      (runValidationCollectAux keep rs out tested c).2.1 = tested + rs.length := by
  induction rs with
  | nil => intro out tested c; simp [runValidationCollectAux]
  | cons r rs ih =>
    intro out tested c
    by_cases hok : r.ok
    · simp only [runValidationCollectAux, if_pos hok]
      rw [ih]
      simp only [List.length_cons]
      omega
    · simp only [runValidationCollectAux, if_neg hok]
      rw [ih]
      simp only [List.length_cons]
      omega

theorem collectAux_flag_sticky (keep : Int) (rs : List ProbeResult) :
    ∀ out tested, (runValidationCollectAux keep rs out tested true).2.2 = true := by
  induction rs with
  | nil => intro out tested; rfl
  | cons r rs ih =>
    intro out tested
    by_cases hok : r.ok
    · simp only [runValidationCollectAux, if_pos hok]
      split
      · exact ih _ _
      · exact ih _ _
    · simp only [runValidationCollectAux, if_neg hok]
      exact ih _ _

theorem collectAux_flag (keep : Int) (rs : List ProbeResult) :
    ∀ out tested c, 0 < keep → (out.length : Int) < keep →
      keep ≤ (out.length : Int) + ((observedSuccesses rs).length : Int) →
      (runValidationCollectAux keep rs out tested c).2.2 = true := by
  induction rs with
  | nil =>
    intro out tested c hk hlt hle
    exfalso
    simp [observedSuccesses] at hle
    omega
  | cons r rs ih =>
    intro out tested c hk hlt hle
    by_cases hok : r.ok
    · have hsucc : (observedSuccesses (r :: rs)).length = (observedSuccesses rs).length + 1 := by
        simp [observedSuccesses, List.filter_cons, hok]
      simp only [runValidationCollectAux, if_pos hok]
      by_cases hreach : keep ≤ (((out ++ [r.node]).length : Nat) : Int)
      · rw [if_pos ⟨hk, hreach⟩]
        exact collectAux_flag_sticky keep rs _ _
      · rw [if_neg (fun hc => hreach hc.2)]
        refine ih _ _ _ hk ?_ ?_
        · simp only [List.length_append, List.length_singleton] at hreach ⊢
          push_cast at hreach ⊢
          omega
        · rw [hsucc] at hle
          simp only [List.length_append, List.length_singleton]
          push_cast at hle ⊢
          omega
    · have hsucc : (observedSuccesses (r :: rs)).length = (observedSuccesses rs).length := by
        simp [observedSuccesses, List.filter_cons, hok]
      simp only [runValidationCollectAux, if_neg hok]
      refine ih _ _ _ hk hlt ?_
      rw [hsucc] at hle
      exact hle

/-- C5 (amended): the collector keeps every successful probe result it
observes, in observation order (so when at least K succeed, the first K
survivors are the first K observed successes, but the list is not truncated
at K); it counts every observed result; and once K > 0 successes have
accumulated it requests cancellation. -/
theorem collector_keeps_all (keep : Int) (rs : List ProbeResult) :
    (runValidationCollect keep rs).1 = observedSuccesses rs ∧
    (runValidationCollect keep rs).2.1 = rs.length ∧
    (0 < keep → keep ≤ ((observedSuccesses rs).length : Int) →
      (runValidationCollect keep rs).2.2 = true) := by
  refine ⟨?_, ?_, ?_⟩
  · simpa using collectAux_out keep rs [] 0 false
  · simpa using collectAux_tested keep rs [] 0 false
  · intro hk hle
    refine collectAux_flag keep rs [] 0 false hk (by simpa using hk) ?_
    simpa using hle

/-- C5 counterexample: with keep K = 1 and an observed stream of two
successes (both workers published into the buffered result channel before
the collector drained it — a legal schedule), the collector returns both
successes: the surviving list is not the first K = 1 successes. -/
theorem collector_keeps_all_counterexample :
    (runValidationCollect 1 [⟨nodeA, true⟩, ⟨nodeB, true⟩]).1 ≠
      (observedSuccesses [⟨nodeA, true⟩, ⟨nodeB, true⟩]).take 1 ∧
    (runValidationCollect 1 [⟨nodeA, true⟩, ⟨nodeB, true⟩]).1.length = 2 := by
  decide

/-- Witness for `collector_keeps_all` at a concrete input. -/
theorem collector_keeps_all_witness :
    (runValidationCollect 1 [⟨nodeA, true⟩]).1 = observedSuccesses [⟨nodeA, true⟩] ∧
    (runValidationCollect 1 [⟨nodeA, true⟩]).2.2 = true :=
  ⟨(collector_keeps_all 1 [⟨nodeA, true⟩]).1,
   (collector_keeps_all 1 [⟨nodeA, true⟩]).2.2 (by decide) (by decide)⟩

/-! ## Parser heuristic (C7) -/

/-- C7 (amended): with `defaultType = "auto"` the port heuristic applies,
and 1080 is in the heuristic's SOCKS set, so `1.2.3.4:1080` parses as a
socks5 node (not http); `1.2.3.4:9050` also parses as socks5. -/
theorem parse_auto_heuristic :
    (ParseProxySpec noURLParse "1.2.3.4:1080" "auto").map (fun n => n.type) =
      some ProxyTypeSOCKS5 ∧
    (ParseProxySpec noURLParse "1.2.3.4:9050" "auto").map (fun n => n.type) =
      some ProxyTypeSOCKS5 ∧
    guessProxyType "1080" = ProxyTypeSOCKS5 ∧
    guessProxyType "9050" = ProxyTypeSOCKS5 := by
  decide

/-- C7 counterexample: `Parse("1.2.3.4:1080", "auto")` does not yield an
http-kind node, contrary to the claim. -/
theorem parse_auto_1080_not_http :
    (ParseProxySpec noURLParse "1.2.3.4:1080" "auto").map (fun n => n.type) ≠
      some ProxyTypeHTTP := by
  decide

/-! ## HTTP CONNECT (C1) -/

theorem connectReplyOK_not_fallback (r : ConnectReply) (h : connectReplyOK r = true) :
    fallbackStatus r = false := by
  unfold connectReplyOK at h
  have hs : r.status = some 200 := by
    simp only [Bool.and_eq_true, beq_iff_eq] at h
    exact h.1
  unfold fallbackStatus
  rw [hs]
  rfl

/-- C1 (spec-modelled): through an HTTP-kind upstream the CONNECT dial sends
Variant 1 (HTTP/1.1, `Host:` = host:port, with `Proxy-Connection` and
`User-Agent`), attempts Variant 2 (HTTP/1.0, `Host:` = hostname without
port, without those headers) iff Variant 1's status was 400, 405 or 501, and
a variant succeeds iff its status line parses to 200 and the headers end in
a blank line. -/
theorem dialHTTPConnect_spec (network addr : String) (hasCreds : Bool)
    (reply : ConnectRequest → ConnectReply) (target : String)
    (req1 req2 : ConnectRequest) (r1 r2 : ConnectReply)
    (hnet : network = "tcp" ∨ network = "tcp4" ∨ network = "tcp6")
    (htarget : target = ensureTargetPort addr)
    (hreq1 : req1 = mkConnectRequest 1 target hasCreds)
    (hreq2 : req2 = mkConnectRequest 2 target hasCreds)
    (hr1 : r1 = reply req1) (hr2 : r2 = reply req2) :
    ((dialHTTPConnect network addr hasCreds reply).2 = [req1, req2] ↔
       fallbackStatus r1 = true) ∧
    ((dialHTTPConnect network addr hasCreds reply).2 = [req1] ↔
       fallbackStatus r1 = false) ∧
    ((dialHTTPConnect network addr hasCreds reply).1 = .connected 1 ↔
       connectReplyOK r1 = true) ∧
    ((dialHTTPConnect network addr hasCreds reply).1 = .connected 2 ↔
       (fallbackStatus r1 = true ∧ connectReplyOK r2 = true)) ∧
    req1.httpVersion = "HTTP/1.1" ∧ req1.hostHeader = target ∧
    req1.hasProxyConnection = true ∧ req1.hasUserAgent = true ∧
    req1.hasProxyAuth = hasCreds ∧
    req2.httpVersion = "HTTP/1.0" ∧ req2.hostHeader = connectHostOnly target ∧
    req2.hasProxyConnection = false ∧ req2.hasUserAgent = false := by
  subst htarget hreq1 hreq2 hr1 hr2
  have hnet' : ¬ (network ≠ "tcp" ∧ network ≠ "tcp4" ∧ network ≠ "tcp6") := by
    rcases hnet with h | h | h <;> simp [h]
  unfold dialHTTPConnect
  rw [if_neg hnet']
  by_cases hok : connectReplyOK (reply (mkConnectRequest 1 (ensureTargetPort addr) hasCreds)) = true
  · have hfb := connectReplyOK_not_fallback _ hok
    rw [if_pos hok]
    refine ⟨?_, ?_, ?_, ?_, rfl, rfl, rfl, rfl, rfl, rfl, rfl, rfl, rfl⟩ <;>
      simp [hfb, hok]
  · rw [if_neg hok]
    have hok' : connectReplyOK (reply (mkConnectRequest 1 (ensureTargetPort addr) hasCreds)) = false := by
      simpa using hok
    by_cases hfb : fallbackStatus (reply (mkConnectRequest 1 (ensureTargetPort addr) hasCreds)) = true
    · rw [if_pos hfb]
      by_cases hok2 : connectReplyOK (reply (mkConnectRequest 2 (ensureTargetPort addr) hasCreds)) = true
      · rw [if_pos hok2]
        refine ⟨?_, ?_, ?_, ?_, rfl, rfl, rfl, rfl, rfl, rfl, rfl, rfl, rfl⟩ <;>
          simp [hfb, hok', hok2]
      · rw [if_neg hok2]
        have hok2' : connectReplyOK (reply (mkConnectRequest 2 (ensureTargetPort addr) hasCreds)) = false := by
          simpa using hok2
        refine ⟨?_, ?_, ?_, ?_, rfl, rfl, rfl, rfl, rfl, rfl, rfl, rfl, rfl⟩ <;>
          simp [hfb, hok', hok2']
    · rw [if_neg hfb]
      have hfb' : fallbackStatus (reply (mkConnectRequest 1 (ensureTargetPort addr) hasCreds)) = false := by
        simpa using hfb
      refine ⟨?_, ?_, ?_, ?_, rfl, rfl, rfl, rfl, rfl, rfl, rfl, rfl, rfl⟩ <;>
        simp [hfb', hok']

/-- Witness for `dialHTTPConnect_spec`: a proxy that answers 400 to Variant 1
makes the dialer send both variants. -/
theorem dialHTTPConnect_spec_witness :
    (dialHTTPConnect "tcp" "example.com" false replyFB).2 =
      [mkConnectRequest 1 (ensureTargetPort "example.com") false,
       mkConnectRequest 2 (ensureTargetPort "example.com") false] :=
  (dialHTTPConnect_spec "tcp" "example.com" false replyFB
      (ensureTargetPort "example.com")
      (mkConnectRequest 1 (ensureTargetPort "example.com") false)
      (mkConnectRequest 2 (ensureTargetPort "example.com") false)
      (replyFB (mkConnectRequest 1 (ensureTargetPort "example.com") false))
      (replyFB (mkConnectRequest 2 (ensureTargetPort "example.com") false))
      (Or.inl rfl) rfl rfl rfl rfl rfl).1.mpr (by decide)

/-! ## Fetch failure policy (C6) -/

theorem mergeDedup_ne_nil (lists : List (List ProxyNode)) (n : ProxyNode)
    (hn : n ∈ lists.flatten) (hwf : nodeWF n) : MergeDedup lists ≠ [] := by
  unfold MergeDedup
  rcases List.append_of_mem hn with ⟨l₁, l₂, h⟩
  rw [h]
  exact dedup_foldl_ne_nil _ [] [] (by simp) n (by simp) hwf

/-- C6: the failure policy of `FetchFromSources` over well-formed per-source
results: a nonempty successful list anywhere yields the merged list plus the
joined per-source errors; all sources failing yields the joined errors and
no list; all sources succeeding with an empty merge yields the distinct
"empty proxy list" error. -/
theorem fetchFromSources_policy (results : List (Except String (List ProxyNode)))
    (hne : results ≠ [])
    (hwf : ∀ l ∈ sourceOks results, ∀ n ∈ l, nodeWF n) :
    ((∃ l ∈ sourceOks results, l ≠ []) →
       FetchFromSources results =
         (MergeDedup (sourceOks results),
          if sourceErrs results = [] then none
          else some (.joined (sourceErrs results)))) ∧
    ((∀ r ∈ results, ∀ l, r ≠ .ok l) →
       FetchFromSources results = ([], some (.joined (sourceErrs results)))) ∧
    ((∀ r ∈ results, ∃ l, r = .ok l) → MergeDedup (sourceOks results) = [] →
       FetchFromSources results = ([], some .emptyProxyList)) := by
  have hisEmpty : ¬ (results.isEmpty = true) := by
    cases results with
    | nil => exact absurd rfl hne
    | cons a t => simp
  refine ⟨?_, ?_, ?_⟩
  · rintro ⟨l, hl, hlne⟩
    rcases List.exists_mem_of_ne_nil l hlne with ⟨n, hn⟩
    have hnflat : n ∈ (sourceOks results).flatten := List.mem_flatten.mpr ⟨l, hl, hn⟩
    have hmne : MergeDedup (sourceOks results) ≠ [] :=
      mergeDedup_ne_nil _ n hnflat (hwf l hl n hn)
    unfold FetchFromSources
    rw [if_neg hisEmpty, if_neg hmne]
    by_cases herr : sourceErrs results = []
    · rw [if_neg (by simp [herr]), if_pos herr]
    · rw [if_pos herr, if_neg herr]
  · intro hall
    have hoks : sourceOks results = [] := by
      rw [sourceOks, List.filterMap_eq_nil_iff]
      intro r hr
      cases r with
      | ok l => exact absurd rfl (hall (.ok l) hr l)
      | error e => rfl
    have hmerge : MergeDedup (sourceOks results) = [] := by
      rw [hoks]
      rfl
    have hanyok : ¬ (results.any isOkR = true) := by
      rw [List.any_eq_true]
      rintro ⟨r, hr, hok⟩
      cases r with
      | ok l => exact absurd rfl (hall (.ok l) hr l)
      | error e => exact absurd hok (by simp [isOkR])
    have herr : sourceErrs results ≠ [] := by
      cases results with
      | nil => exact absurd rfl hne
      | cons r t =>
        cases r with
        | ok l => exact absurd rfl (hall (.ok l) (by simp) l)
        | error e => simp [sourceErrs]
    unfold FetchFromSources
    rw [if_neg hisEmpty, if_pos hmerge, if_neg hanyok, if_pos herr]
  · intro hall hmerge
    have hanyok : results.any isOkR = true := by
      rw [List.any_eq_true]
      cases results with
      | nil => exact absurd rfl hne
      | cons r t =>
        rcases hall r (by simp) with ⟨l, rfl⟩
        exact ⟨.ok l, by simp, by simp [isOkR]⟩
    unfold FetchFromSources
    rw [if_neg hisEmpty, if_pos hmerge, if_pos hanyok]

/-- Witness for `fetchFromSources_policy` on concrete source outcomes. -/
theorem fetchFromSources_policy_witness :
    FetchFromSources [.error "e1", .ok [nodeA], .error "e2"] =
      (MergeDedup (sourceOks [.error "e1", .ok [nodeA], .error "e2"]),
       if sourceErrs [.error "e1", .ok [nodeA], .error "e2"] = [] then none
       else some (.joined (sourceErrs [.error "e1", .ok [nodeA], .error "e2"]))) :=
  (fetchFromSources_policy [.error "e1", .ok [nodeA], .error "e2"]
      (by simp) (by decide)).1 ⟨[nodeA], by decide, by decide⟩

/-! ## Parser lemmas (C8) -/

theorem schemeKind_http (scheme : String)
    (h : scheme = "http" ∨ scheme = "https") :
    schemeKind scheme = some ProxyTypeHTTP := by
  unfold schemeKind
  rw [if_pos h]

theorem schemeKind_socks (scheme : String)
    (h : scheme = "socks5" ∨ scheme = "socks5h") :
    schemeKind scheme = some ProxyTypeSOCKS5 := by
  unfold schemeKind
  have hA : ¬ (scheme = "http" ∨ scheme = "https") := by
    rcases h with h | h <;> subst h <;> decide
  rw [if_neg hA, if_pos h]

theorem schemeKind_none (scheme : String)
    (h : scheme ≠ "http" ∧ scheme ≠ "https" ∧ scheme ≠ "socks5" ∧ scheme ≠ "socks5h") :
    schemeKind scheme = none := by
  unfold schemeKind
  rw [if_neg (by tauto), if_neg (by tauto)]

theorem schemeKind_cases (scheme k : String) (h : schemeKind scheme = some k) :
    k = ProxyTypeHTTP ∨ k = ProxyTypeSOCKS5 := by
  unfold schemeKind at h
  by_cases hA : scheme = "http" ∨ scheme = "https"
  · rw [if_pos hA] at h
    exact Or.inl (Option.some.inj h).symm
  · rw [if_neg hA] at h
    by_cases hB : scheme = "socks5" ∨ scheme = "socks5h"
    · rw [if_pos hB] at h
      exact Or.inr (Option.some.inj h).symm
    · rw [if_neg hB] at h
      cases h

theorem parseSchemeBranch_reject (u : URLParts) :
    ((asciiToLower u.scheme ≠ "http" ∧ asciiToLower u.scheme ≠ "https" ∧
      asciiToLower u.scheme ≠ "socks5" ∧ asciiToLower u.scheme ≠ "socks5h") →
      parseSchemeBranch u = none) ∧
    (goIsIP u.host = false → parseSchemeBranch u = none) ∧
    (validPort u.port = false → parseSchemeBranch u = none) := by
  refine ⟨?_, ?_, ?_⟩
  · intro hrej
    unfold parseSchemeBranch
    rw [schemeKind_none _ hrej]
  · intro hip
    unfold parseSchemeBranch
    cases hk : schemeKind (asciiToLower u.scheme) with
    | none => rfl
    | some kind =>
      dsimp only
      rw [if_pos (Or.inl (by simp [hip]))]
  · intro hport
    unfold parseSchemeBranch
    cases hk : schemeKind (asciiToLower u.scheme) with
    | none => rfl
    | some kind =>
      dsimp only
      rw [if_pos (Or.inr (by simp [hport]))]

theorem parseSchemeBranch_some (u : URLParts) (n : ProxyNode)
    (h : parseSchemeBranch u = some n) :
    n.ip = u.host ∧ n.port = u.port ∧ n.id = u.host ++ ":" ++ u.port ∧
    n.latencyMS = -1 ∧ goIsIP u.host = true ∧ validPort u.port = true ∧
    n.user = (if u.hasUser then u.username else "") ∧
    n.pass = (if u.hasUser then u.password else "") ∧
    ((asciiToLower u.scheme = "http" ∨ asciiToLower u.scheme = "https") →
      n.type = ProxyTypeHTTP) ∧
    ((asciiToLower u.scheme = "socks5" ∨ asciiToLower u.scheme = "socks5h") →
      n.type = ProxyTypeSOCKS5) ∧
    (n.type = ProxyTypeHTTP ∨ n.type = ProxyTypeSOCKS5) := by
  unfold parseSchemeBranch at h
  cases hk : schemeKind (asciiToLower u.scheme) with
  | none => rw [hk] at h; cases h
  | some kind =>
    rw [hk] at h
    dsimp only at h
    by_cases hg : ¬ (goIsIP u.host = true) ∨ ¬ (validPort u.port = true)
    · rw [if_pos hg] at h
      cases h
    · rw [if_neg hg] at h
      push_neg at hg
      injection h with h
      subst h
      refine ⟨rfl, rfl, rfl, rfl, hg.1, hg.2, rfl, rfl, ?_, ?_, ?_⟩
      · intro hA
        have h2 := schemeKind_http _ hA
        rw [hk] at h2
        injection h2 with h2
      · intro hB
        have h2 := schemeKind_socks _ hB
        rw [hk] at h2
        injection h2 with h2
      · exact schemeKind_cases _ _ hk

theorem guessProxyType_cases (p : String) :
    guessProxyType p = ProxyTypeHTTP ∨ guessProxyType p = ProxyTypeSOCKS5 := by
  unfold guessProxyType
  split_ifs <;> simp

theorem barePickType_cases (dt p : String) :
    barePickType dt p = ProxyTypeHTTP ∨ barePickType dt p = ProxyTypeSOCKS5 := by
  unfold barePickType
  split_ifs with hc
  · rcases hc with h | h
    · exact Or.inl h
    · exact Or.inr h
  · exact guessProxyType_cases p

theorem splitHostPortLoose_ok (s h p : String)
    (hs : splitHostPortLoose s = some (h, p)) :
    goIsIP h = true ∧ validPort p = true := by
  unfold splitHostPortLoose at hs
  by_cases hcnt : countChar ':' s.data = 1
  · rw [if_pos hcnt] at hs
    cases hidx : indexOfChar ':' s.data with
    | none => rw [hidx] at hs; cases hs
    | some i =>
      rw [hidx] at hs
      dsimp only at hs
      by_cases h1 : trimSpaceL (s.data.take i) = [] ∨ trimSpaceL (s.data.drop (i + 1)) = []
      · rw [if_pos h1] at hs; cases hs
      · rw [if_neg h1] at hs
        by_cases h2 : ¬ (goIsIPList (trimSpaceL (s.data.take i)) = true)
        · rw [if_pos h2] at hs; cases hs
        · rw [if_neg h2] at hs
          by_cases h3 : ¬ (validPortL (trimSpaceL (s.data.drop (i + 1))) = true)
          · rw [if_pos h3] at hs; cases hs
          · rw [if_neg h3] at hs
            push_neg at h2 h3
            injection hs with hs
            rw [Prod.mk.injEq] at hs
            rcases hs with ⟨rfl, rfl⟩
            exact ⟨h2, h3⟩
  · rw [if_neg hcnt] at hs
    cases hsp : goSplitHostPort s.data with
    | none => rw [hsp] at hs; cases hs
    | some hp0 =>
      rw [hsp] at hs
      dsimp only at hs
      by_cases h2 : ¬ (goIsIPList (trimBrackets hp0.1) = true)
      · rw [if_pos h2] at hs; cases hs
      · rw [if_neg h2] at hs
        by_cases h3 : ¬ (validPortL hp0.2 = true)
        · rw [if_pos h3] at hs; cases hs
        · rw [if_neg h3] at hs
          push_neg at h2 h3
          injection hs with hs
          rw [Prod.mk.injEq] at hs
          rcases hs with ⟨rfl, rfl⟩
          exact ⟨h2, h3⟩

theorem parseBareBranch_some (specL : List Char) (dt : String) (n : ProxyNode)
    (h : parseBareBranch specL dt = some n) :
    n.id = n.ip ++ ":" ++ n.port ∧ n.latencyMS = -1 ∧
    goIsIP n.ip = true ∧ validPort n.port = true ∧
    (n.type = ProxyTypeHTTP ∨ n.type = ProxyTypeSOCKS5) ∧
    n.user = (bareCreds (bareSplitAt specL).1).1 ∧
    n.pass = (bareCreds (bareSplitAt specL).1).2 := by
  unfold parseBareBranch at h
  cases hsp : splitHostPortLoose (String.mk (bareSplitAt specL).2) with
  | none => rw [hsp] at h; cases h
  | some hp =>
    rw [hsp] at h
    injection h with h
    subst h
    have hok := splitHostPortLoose_ok _ hp.1 hp.2 (by rw [hsp])
    exact ⟨rfl, rfl, hok.1, hok.2, barePickType_cases dt hp.2, rfl, rfl⟩

/-- C8: `ParseProxySpec` accepts only descriptors whose host is a literal IP
(per the `net.ParseIP` model) and whose port passes `validPort`
(`strconv.Atoi` in 1..65535), with the scheme — when present — drawn from
{socks5, socks5h, http, https} and normalized; every accepted descriptor
yields `ID = ip:port`, `LatencyMS = −1`, a normalized kind, and the
credentials of the descriptor; everything else returns the `none`
sentinel.  `net/url.Parse` itself is abstracted as `urlParse`. -/
theorem parseProxySpec_contract :
    (∀ (up : String → Option URLParts) (s dt : String) (n : ProxyNode),
       ParseProxySpec up s dt = some n →
       n.id = n.ip ++ ":" ++ n.port ∧ n.latencyMS = -1 ∧
       goIsIP n.ip = true ∧ validPort n.port = true ∧
       (n.type = ProxyTypeHTTP ∨ n.type = ProxyTypeSOCKS5)) ∧
    (∀ (up : String → Option URLParts) (s dt : String) (u : URLParts),
       goTrimSpace s ≠ "" → (goTrimSpace s).data.head? ≠ some '#' →
       containsSeq "://".data (goTrimSpace s).data = true →
       up (goTrimSpace s) = some u →
       (ParseProxySpec up s dt = parseSchemeBranch u) ∧
       ((asciiToLower u.scheme ≠ "http" ∧ asciiToLower u.scheme ≠ "https" ∧
         asciiToLower u.scheme ≠ "socks5" ∧ asciiToLower u.scheme ≠ "socks5h") →
         ParseProxySpec up s dt = none) ∧
       (goIsIP u.host = false → ParseProxySpec up s dt = none) ∧
       (validPort u.port = false → ParseProxySpec up s dt = none) ∧
       (∀ n : ProxyNode, ParseProxySpec up s dt = some n →
         n.ip = u.host ∧ n.port = u.port ∧
         n.user = (if u.hasUser then u.username else "") ∧
         n.pass = (if u.hasUser then u.password else "") ∧
         ((asciiToLower u.scheme = "http" ∨ asciiToLower u.scheme = "https") →
           n.type = ProxyTypeHTTP) ∧
         ((asciiToLower u.scheme = "socks5" ∨ asciiToLower u.scheme = "socks5h") →
           n.type = ProxyTypeSOCKS5))) ∧
    (∀ s h p : String, splitHostPortLoose s = some (h, p) →
       goIsIP h = true ∧ validPort p = true) ∧
    (∀ (up : String → Option URLParts) (s dt : String) (n : ProxyNode),
       containsSeq "://".data (goTrimSpace s).data = false →
       ParseProxySpec up s dt = some n →
       n.user = (bareCreds (bareSplitAt (goTrimSpace s).data).1).1 ∧
       n.pass = (bareCreds (bareSplitAt (goTrimSpace s).data).1).2) := by
  have hbranch : ∀ (up : String → Option URLParts) (s dt : String),
      ParseProxySpec up s dt =
        if goTrimSpace s = "" ∨ (goTrimSpace s).data.head? = some '#' then none
        else if containsSeq "://".data (goTrimSpace s).data then
          match up (goTrimSpace s) with
          | none => none
          | some u => parseSchemeBranch u
        else parseBareBranch (goTrimSpace s).data dt := by
    intro up s dt
    rfl
  refine ⟨?_, ?_, splitHostPortLoose_ok, ?_⟩
  · intro up s dt n h
    rw [hbranch] at h
    by_cases h0 : goTrimSpace s = "" ∨ (goTrimSpace s).data.head? = some '#'
    · rw [if_pos h0] at h
      cases h
    · rw [if_neg h0] at h
      by_cases hc : containsSeq "://".data (goTrimSpace s).data = true
      · rw [if_pos hc] at h
        cases hu : up (goTrimSpace s) with
        | none => rw [hu] at h; cases h
        | some u =>
          rw [hu] at h
          have := parseSchemeBranch_some u n h
          rcases this with ⟨hip, hport, hid, hlat, hgip, hvp, _, _, _, _, htype⟩
          refine ⟨by rw [hid, hip, hport], hlat, by rw [hip]; exact hgip,
            by rw [hport]; exact hvp, htype⟩
      · rw [if_neg hc] at h
        have := parseBareBranch_some (goTrimSpace s).data dt n h
        exact ⟨this.1, this.2.1, this.2.2.1, this.2.2.2.1, this.2.2.2.2.1⟩
  · intro up s dt u h0a h0b hc hu
    have h0 : ¬ (goTrimSpace s = "" ∨ (goTrimSpace s).data.head? = some '#') := by
      tauto
    have heq : ParseProxySpec up s dt = parseSchemeBranch u := by
      rw [hbranch, if_neg h0, if_pos hc, hu]
    refine ⟨heq, ?_, ?_, ?_, ?_⟩
    · intro hrej
      rw [heq]
      exact (parseSchemeBranch_reject u).1 hrej
    · intro hip
      rw [heq]
      exact (parseSchemeBranch_reject u).2.1 hip
    · intro hport
      rw [heq]
      exact (parseSchemeBranch_reject u).2.2 hport
    · intro n hn
      rw [heq] at hn
      have := parseSchemeBranch_some u n hn
      exact ⟨this.1, this.2.1, this.2.2.2.2.2.2.1, this.2.2.2.2.2.2.2.1,
        this.2.2.2.2.2.2.2.2.1, this.2.2.2.2.2.2.2.2.2.1⟩
  · intro up s dt n hc h
    rw [hbranch] at h
    by_cases h0 : goTrimSpace s = "" ∨ (goTrimSpace s).data.head? = some '#'
    · rw [if_pos h0] at h
      cases h
    · rw [if_neg h0, if_neg (by simp [hc])] at h
      have := parseBareBranch_some (goTrimSpace s).data dt n h
      exact ⟨this.2.2.2.2.2.1, this.2.2.2.2.2.2⟩

/-- Witness for `parseProxySpec_contract` on concrete descriptors. -/
theorem parseProxySpec_contract_witness :
    (nodeA.id = nodeA.ip ++ ":" ++ nodeA.port ∧ nodeA.latencyMS = -1 ∧
      goIsIP nodeA.ip = true ∧ validPort nodeA.port = true ∧
      (nodeA.type = ProxyTypeHTTP ∨ nodeA.type = ProxyTypeSOCKS5)) ∧
    ParseProxySpec (fun _ => some ⟨"foo", false, "", "", "1.2.3.4", "1080"⟩)
      "foo://1.2.3.4:1080" "" = none ∧
    (goIsIP "1.2.3.4" = true ∧ validPort "1080" = true) :=
  ⟨parseProxySpec_contract.1 noURLParse "1.2.3.4:80" "socks5" nodeA (by decide),
   ((parseProxySpec_contract.2.1 (fun _ => some ⟨"foo", false, "", "", "1.2.3.4", "1080"⟩)
       "foo://1.2.3.4:1080" "" ⟨"foo", false, "", "", "1.2.3.4", "1080"⟩
       (by decide) (by decide) (by decide) rfl).2.1) (by decide),
   parseProxySpec_contract.2.2.1 "1.2.3.4:1080" "1.2.3.4" "1080" (by decide)⟩

end LiteProxy
